import Mathlib

/-!
Verification model of the EEGLAB .set reader module (mne/io/eeglab/eeglab.py).
Pure functions model the header translation (the function _get_info), the
chunked binary sample reader (RawSet._read_segment_file), the raw-path
validation performed by RawSet.__init__, the event reconstruction performed
by EpochsSet.__init__, and the blob load of EpochsSet.__init__.
Sample values are modelled generically over a type with a multiplication
and a zero; floating-point rounding is not modelled.  The destination
buffer of the chunked reader is represented column-wise: a list of
stop - start columns, each column holding the values of the selected
channels at one sample.
-/

namespace EEGLab

/-- Errors raised by the reader.  Each constructor records one concrete
Python exception site: wrongTrials is the TypeError raised by
RawSet.__init__ when eeg.trials is not 1; epochMultipleEvents is the
ValueError for an epoch whose eventtype field is not a single string;
noMatchingEvents is the ValueError from the event-id validation loop;
nameError is the NameError caused by the unique_ev fallback when the
reconstruction branch did not run; indexError and keyError are the
corresponding Python exceptions in the event-array fill loop; typeError is
the subscript of None in the validation loop; reshapeError is the
ValueError numpy raises for a reshape whose size does not divide evenly. -/
inductive SetError where
  | wrongTrials (n : Nat)
  | epochMultipleEvents
  | noMatchingEvents (label : String) (code : Nat)
  | nameError
  | indexError
  | keyError
  | typeError
  | reshapeError
deriving DecidableEq, Repr

/-- FIFF channel kind as far as this module touches it: channels produced by
the montage update start as ordinary EEG channels and _get_info switches
matching ones to EOG. -/
inductive ChKind where
  | eeg
  | eog
deriving DecidableEq, Repr

/-- Coil type: _get_info switches matching channels to FIFFV_COIL_NONE. -/
inductive CoilType where
  | eegCoil
  | noneCoil
deriving DecidableEq, Repr

/-- One entry of eeg.chanlocs: a channel label plus X, Y, Z coordinates. -/
structure ChanLoc where
  labels : String
  X : ℚ
  Y : ℚ
  Z : ℚ
deriving DecidableEq, Repr

/-- One entry of the chs list of the measurement info after _get_info. -/
structure ChannelInfo where
  ch_name : String
  cal : ℚ
  kind : ChKind
  coil_type : CoilType
  loc : ℚ × ℚ × ℚ
deriving DecidableEq, Repr

/-- Modelled from the spec: _check_update_montage (mne/io, not under src/)
called with update_ch_names=True fills the chs list with one descriptor per
montage channel, in montage order, named after the montage channel, at the
montage position, as an ordinary channel with the default calibration 1
coming from _empty_info. -/
def checkUpdateMontage (names : List String) (pos : List (ℚ × ℚ × ℚ)) :
    List ChannelInfo :=
  (names.zip pos).map fun p =>
    { ch_name := p.1, cal := 1, kind := ChKind.eeg,
      coil_type := CoilType.eegCoil, loc := p.2 }

/-- Python str.startswith, modelled on the character lists of the two
strings. -/
def strStartsWith (s p : String) : Bool := p.data.isPrefixOf s.data

/-- The body of the channel update loop of _get_info: set the calibration to
1e-6, then reclassify the channel as EOG when its name starts with EOG or
appears in the eog list. -/
def updateChannel (eogList : List String) (ch : ChannelInfo) : ChannelInfo :=
  if strStartsWith ch.ch_name "EOG" = true ∨ ch.ch_name ∈ eogList then
    { ch with
      cal := (1 : ℚ) / 1000000,
      coil_type := CoilType.noneCoil,
      kind := ChKind.eog }
  else { ch with cal := (1 : ℚ) / 1000000 }

/-- Model of _get_info: build the montage from the chanlocs list when it is
nonempty (names and positions taken entry by entry, in order), then run the
channel update loop, with None for the eog argument meaning the empty
list. -/
def getInfo (chanlocs : List ChanLoc) (eog : Option (List String)) :
    List ChannelInfo :=
  let chs := checkUpdateMontage (chanlocs.map fun c => c.labels)
    (chanlocs.map fun c => (c.X, c.Y, c.Z))
  chs.map (updateChannel (eog.getD []))

/-- The header fields of the .set record used by RawSet.__init__. -/
structure RawHeader where
  trials : Nat
  pnts : Nat
  nbchan : Nat
  dataEmbedded : Bool
deriving DecidableEq, Repr

/-- Observable actions of RawSet.__init__: the preload warning and a read of
sample data from the external blob. -/
inductive RawAction where
  | warnPreload
  | readSample
deriving DecidableEq, Repr

/-- Model of the control flow of RawSet.__init__: first the preload warning
for embedded data without preload, then the hard trial-count check, and only
afterwards the data paths (an eager external load reads the blob; the lazy
external path and the embedded reshape read no blob).  The returned value is
the last sample index pnts - 1. -/
def rawSetInit (h : RawHeader) (preload : Bool) :
    List RawAction × Except SetError Nat :=
  let warns := if h.dataEmbedded = true ∧ preload = false
    then [RawAction.warnPreload] else []
  if h.trials ≠ 1 then
    (warns, Except.error (SetError.wrongTrials h.trials))
  else
    (warns ++ (if h.dataEmbedded then []
      else if preload then [RawAction.readSample] else []),
     Except.ok (h.pnts - 1))

/-- File-handle events observed by the resource model. -/
inductive HEvent where
  | openH
  | readH
  | closeH
deriving DecidableEq, Repr

/- The sample carrier type: the source stores 4-byte floats and scales them
by rational calibration factors; the reader only moves samples around and
multiplies them by calibrations, so it is modelled generically over a type
with a multiplication and a zero (the zero of the fresh destination
buffer). -/
variable {α : Type} [Mul α] [Zero α]

/-- np.fromfile on an open handle at position pos (in samples): returns the
next count samples, or as many as remain when the file is shorter; a short
read does not raise. -/
def fileRead (file : List α) (pos count : Nat) : List α :=
  (file.drop pos).take count

/-- numpy reshape(nchan, -1) with Fortran order on a flat buffer: column t
is the slice of nchan consecutive samples starting at t * nchan, and the
number of columns is the length divided by nchan. -/
def reshapeF (nchan : Nat) (flat : List α) : List (List α) :=
  (List.range (flat.length / nchan)).map fun t => (flat.drop (t * nchan)).take nchan

/-- Modelled from the spec: _mult_cal_one (mne/io, not under src/) without a
mixing matrix selects the requested channels out of one raw column and
scales each by its calibration factor. -/
def calSelect (idx : List Nat) (cals : List α) (col : List α) : List α :=
  (idx.zip cals).map fun p => p.2 * col.getD p.1 0

/-- Slice assignment dest[i : i + xs.length] = xs on the column list. -/
def overwriteFrom : List (List α) → Nat → List (List α) → List (List α)
  | [], _, _ => []
  | d :: ds, 0, [] => d :: ds
  | _ :: ds, 0, x :: xs => x :: overwriteFrom ds 0 xs
  | d :: ds, i + 1, xs => d :: overwriteFrom ds i xs

/-- np.arange(0, hi, step) over the naturals. -/
def arange0 (hi step : Nat) : List Nat :=
  if step = 0 then [] else (List.range ((hi + step - 1) / step)).map (· * step)

/-- The block loop of RawSet._read_segment_file.  Each entry of starts is
one raw value of np.arange(0, data_left, blk_size); the loop divides it by
nchan, shrinks the running block size for the final partial block, reads the
block from the current handle position (recording one read event), checks
the reshape divisibility, and writes the calibrated selected columns into
the destination starting at the block start. -/
def readLoop (file : List α) (nchan : Nat) (idx : List Nat) (cals : List α)
    (dataLeft : Nat) :
    List Nat → Nat → Nat → List (List α) →
    List HEvent × Except SetError (List (List α))
  | [], _, _, dest => ([], Except.ok dest)
  | bsRaw :: rest, cur, pos, dest =>
    let bs := bsRaw / nchan
    let bsize := min cur (dataLeft - bs * nchan)
    let flat := fileRead file pos bsize
    if flat.length % nchan = 0 then
      let cols := (reshapeF nchan flat).map (calSelect idx cals)
      let r := readLoop file nchan idx cals dataLeft rest bsize (pos + flat.length)
        (overwriteFrom dest bs cols)
      (HEvent.readH :: r.1, r.2)
    else ([HEvent.readH], Except.error SetError.reshapeError)

/-- RawSet._read_segment_file generalized over the nominal block length B in
samples; the source value of B is nBlocks / nchan.  The handle is opened,
seeked to nchan * start samples, the block loop runs, and the with statement
closes the handle even when the loop raises.  Returns the handle event trace
and either the filled destination buffer or the error. -/
def readSegmentFile (file : List α) (nchan : Nat) (idx : List Nat)
    (cals : List α) (start stop B : Nat) :
    List HEvent × Except SetError (List (List α)) :=
  let dataLeft := (stop - start) * nchan
  let blkSize := min dataLeft (B * nchan)
  let dest := List.replicate (stop - start) (List.replicate idx.length 0)
  let r := readLoop file nchan idx cals dataLeft (arange0 dataLeft blkSize)
    blkSize (start * nchan) dest
  (HEvent.openH :: r.1 ++ [HEvent.closeH], r.2)

/-- n_blocks = 100000000 // n_bytes with n_bytes = 4. -/
def nBlocks : Nat := 100000000 / 4

/-- RawSet._read_segment_file with the source block budget
(n_blocks // nchan) * nchan. -/
def readSegmentFileSrc (file : List α) (nchan : Nat) (idx : List Nat)
    (cals : List α) (start stop : Nat) :
    List HEvent × Except SetError (List (List α)) :=
  readSegmentFile file nchan idx cals start stop (nBlocks / nchan)

/-- One entry of eeg.epoch.  In the .mat container the eventtype field of an
epoch holding a single event is squeezed to a plain string, while zero or
several events give an array, so the Python isinstance string test succeeds
exactly when the label list has one element.  The eventurevent field is the
value the source appends as the event latency. -/
structure EpochAnnot where
  eventtype : List String
  eventurevent : Int
deriving DecidableEq, Repr

/-- The epoch scan loop of EpochsSet.__init__: collect the event label and
latency of each trial in order, keep the distinct labels in first-encounter
order, and raise for any epoch whose eventtype is not a single string. -/
def extractLoop : List EpochAnnot → List String → List Int → List String →
    Except SetError (List String × List Int × List String)
  | [], types, lats, uniq => Except.ok (types, lats, uniq)
  | ep :: rest, types, lats, uniq =>
    match ep.eventtype with
    | [l] => extractLoop rest (types ++ [l]) (lats ++ [ep.eventurevent])
        (if l ∈ uniq then uniq else uniq ++ [l])
    | _ => Except.error SetError.epochMultipleEvents

/-- dict((ev, idx) for idx, ev in enumerate(unique_ev)), as an association
list with keys in insertion order, starting at index i. -/
def enumFrom (i : Nat) : List String → List (String × Nat)
  | [] => []
  | l :: ls => (l, i) :: enumFrom (i + 1) ls

/-- dict((ev, idx) for idx, ev in enumerate(unique_ev)). -/
def enumerateMap (ls : List String) : List (String × Nat) := enumFrom 0 ls

/-- Dictionary key lookup on the association list. -/
def lookupCode : List (String × Nat) → String → Option Nat
  | [], _ => none
  | p :: rest, key => if p.1 = key then some p.2 else lookupCode rest key

/-- The event-array fill loop of EpochsSet.__init__, from index i for n more
trials: row idx is (event_latencies[idx], code, code) because the source
assigns event_id[event_type[idx]] to the slice events[idx, 1:], that is to
both remaining columns of the zero-initialized row. -/
def buildRowsFrom (types : List String) (lats : List Int)
    (eid : List (String × Nat)) :
    Nat → Nat → Except SetError (List (Int × Nat × Nat))
  | _, 0 => Except.ok []
  | i, n + 1 =>
    match lats.get? i, types.get? i with
    | some lat, some ty =>
      match lookupCode eid ty with
      | some c =>
        (buildRowsFrom types lats eid (i + 1) n).map fun rest => (lat, c, c) :: rest
      | none => Except.error SetError.keyError
    | _, _ => Except.error SetError.indexError

/-- The event-array fill loop over range(eeg.trials). -/
def buildRows (trials : Nat) (types : List String) (lats : List Int)
    (eid : List (String × Nat)) : Except SetError (List (Int × Nat × Nat)) :=
  buildRowsFrom types lats eid 0 trials

/-- The validation loop of EpochsSet.__init__: every code of the effective
event-id map must appear in the third column of the events array; iterating
a nonempty map with the events variable still None subscripts None. -/
def validateLoop : List (String × Nat) → Option (List (Int × Nat × Nat)) →
    Except SetError Unit
  | [], _ => Except.ok ()
  | _ :: _, none => Except.error SetError.typeError
  | p :: rest, some rows =>
    if rows.any fun r => r.2.2 == p.2 then validateLoop rest (some rows)
    else Except.error (SetError.noMatchingEvents p.1 p.2)

/-- The event handling of EpochsSet.__init__.  Arguments mirror the Python
call: the epoch list and trial count from the header, the optional caller
events table (a path argument is modelled by the table read_events returns)
and the optional caller event_id map.  When the caller passed no events and
there is more than one trial, the reconstruction branch runs: the epochs are
scanned, the event_id variable is assigned the derived first-encounter map
on every loop iteration (overwriting any caller value once the loop runs),
and the events array is filled.  Afterwards the event_id None fallback
rebuilds the map from unique_ev, a name only assigned inside the branch, and
the validation loop runs.  Returns the events table (None when the caller
passed none and the branch did not run) with the effective event-id map, or
the first raised error. -/
def epochsSetEvents (epochs : List EpochAnnot) (trials : Nat)
    (events0 : Option (List (Int × Nat × Nat)))
    (eventId0 : Option (List (String × Nat))) :
    Except SetError (Option (List (Int × Nat × Nat)) × List (String × Nat)) :=
  if events0 = none ∧ 1 < trials then
    match extractLoop epochs [] [] [] with
    | Except.error e => Except.error e
    | Except.ok (types, lats, uniq) =>
      let eid1 := if epochs.isEmpty then eventId0 else some (enumerateMap uniq)
      match buildRows trials types lats (eid1.getD []) with
      | Except.error e => Except.error e
      | Except.ok rows =>
        let eidFinal := match eid1 with
          | some m => m
          | none => enumerateMap uniq
        match validateLoop eidFinal (some rows) with
        | Except.error e => Except.error e
        | Except.ok _ => Except.ok (some rows, eidFinal)
  else
    match eventId0 with
    | none => Except.error SetError.nameError
    | some m =>
      match validateLoop m events0 with
      | Except.error e => Except.error e
      | Except.ok _ => Except.ok (events0, m)

/-- The sample loading of EpochsSet.__init__ for a blob-backed file: the
handle is opened, the whole file is read, the buffer is reshaped to
(trials, nbchan, pnts), raising when the element count does not match; the
handle is never closed. -/
def epochsLoadData (fileLen trials nbchan pnts : Nat) :
    List HEvent × Except SetError Unit :=
  ([HEvent.openH, HEvent.readH],
   if fileLen = trials * nbchan * pnts then Except.ok ()
   else Except.error SetError.reshapeError)

/-- The single label of an epoch that passed the isinstance string test. -/
def singleLabel (ep : EpochAnnot) : String := ep.eventtype.headD ""

/-- One step of the first-encounter accumulation. -/
def insertNew (acc : List String) (l : String) : List String :=
  if l ∈ acc then acc else acc ++ [l]

/-- The distinct labels of a label list in first-encounter order, matching
the unique_ev accumulation of the epoch scan loop. -/
def firstEncounter (ls : List String) : List String := ls.foldl insertNew []

/-- The event-id map the reconstruction branch derives from the epochs. -/
def derivedEventId (epochs : List EpochAnnot) : List (String × Nat) :=
  enumerateMap (firstEncounter (epochs.map singleLabel))

/-- The event row the source builds for one epoch under a given map: the
latency in column one and the code of the label in both other columns. -/
def expectedRow (m : List (String × Nat)) (ep : EpochAnnot) :
    Int × Nat × Nat :=
  (ep.eventurevent, (lookupCode m (singleLabel ep)).getD 0,
   (lookupCode m (singleLabel ep)).getD 0)

/-- The value of the column of selected calibrated channels at absolute
sample s, read directly from the file; closed form used to relate chunked
reads of different block sizes. -/
def specCol (file : List α) (nchan : Nat) (idx : List Nat) (cals : List α)
    (s : Nat) : List α :=
  calSelect idx cals ((file.drop (s * nchan)).take nchan)

deriving instance DecidableEq for Except

/-! ### Header translator lemmas -/

lemma updateChannel_ch_name (e : List String) (ch : ChannelInfo) :
    (updateChannel e ch).ch_name = ch.ch_name := by
  unfold updateChannel
  split <;> rfl

lemma updateChannel_cal (e : List String) (ch : ChannelInfo) :
    (updateChannel e ch).cal = 1 / 1000000 := by
  unfold updateChannel
  split <;> rfl

lemma updateChannel_kind_of_eeg (e : List String) (ch : ChannelInfo)
    (h : ch.kind = ChKind.eeg) :
    (updateChannel e ch).kind = ChKind.eog ↔
      (strStartsWith ch.ch_name "EOG" = true ∨ ch.ch_name ∈ e) := by
  unfold updateChannel
  split
  next hc => simpa using hc
  next hc => simpa [h] using hc

lemma checkUpdateMontage_kind (names : List String) (pos : List (ℚ × ℚ × ℚ))
    (ch : ChannelInfo) (hm : ch ∈ checkUpdateMontage names pos) :
    ch.kind = ChKind.eeg := by
  simp only [checkUpdateMontage, List.mem_map] at hm
  obtain ⟨p, _, rfl⟩ := hm
  rfl

/-- Claim C7: a produced channel is classified EOG exactly when its name
starts with the literal prefix EOG or belongs to the caller-supplied EOG
name list; every other channel keeps the ordinary classification. -/
theorem c7_eog_classification (chanlocs : List ChanLoc)
    (eog : Option (List String)) (ch : ChannelInfo)
    (hm : ch ∈ getInfo chanlocs eog) :
    ch.kind = ChKind.eog ↔
      (strStartsWith ch.ch_name "EOG" = true ∨ ch.ch_name ∈ eog.getD []) := by
  simp only [getInfo, List.mem_map] at hm
  obtain ⟨ch0, hch0, rfl⟩ := hm
  rw [updateChannel_ch_name]
  exact updateChannel_kind_of_eeg _ _ (checkUpdateMontage_kind _ _ _ hch0)

/-- Claim C7 witness: a channel named EOG1 is classified EOG in the output
of the header translator for a one-channel header with an empty explicit
EOG list. -/
theorem c7_eog_classification_witness :
    ({ ch_name := "EOG1", cal := (1 : ℚ) / 1000000, kind := ChKind.eog, coil_type := CoilType.noneCoil, loc := (0, 0, 0) } : ChannelInfo) ∈ getInfo [⟨"EOG1", 0, 0, 0⟩] (some [])
    ∧ (({ ch_name := "EOG1", cal := (1 : ℚ) / 1000000, kind := ChKind.eog, coil_type := CoilType.noneCoil, loc := (0, 0, 0) } : ChannelInfo).kind = ChKind.eog ↔
        ((strStartsWith "EOG1" "EOG" = true) ∨ "EOG1" ∈ ([] : List String))) := by
  have hmem : ({ ch_name := "EOG1", cal := (1 : ℚ) / 1000000, kind := ChKind.eog, coil_type := CoilType.noneCoil, loc := (0, 0, 0) } : ChannelInfo) ∈ getInfo [⟨"EOG1", 0, 0, 0⟩] (some []) := by
    have h1 : getInfo [⟨"EOG1", 0, 0, 0⟩] (some [])
        = [updateChannel [] { ch_name := "EOG1", cal := 1, kind := ChKind.eeg, coil_type := CoilType.eegCoil, loc := (0, 0, 0) }] := rfl
    have h2 : updateChannel [] { ch_name := "EOG1", cal := 1, kind := ChKind.eeg, coil_type := CoilType.eegCoil, loc := ((0 : ℚ), (0 : ℚ), (0 : ℚ)) }
        = { ch_name := "EOG1", cal := (1 : ℚ) / 1000000, kind := ChKind.eog, coil_type := CoilType.noneCoil, loc := (0, 0, 0) } := by
      unfold updateChannel
      rw [if_pos (Or.inl (by decide))]
    rw [h1, h2]
    exact List.mem_singleton.2 rfl
  exact ⟨hmem, c7_eog_classification [⟨"EOG1", 0, 0, 0⟩] (some []) _ hmem⟩

/-- Claim C8: the header translator produces exactly one channel per
chanlocs entry, named in the same order as the header, and every produced
channel carries the fixed calibration factor 1e-6. -/
theorem c8_channel_order (chanlocs : List ChanLoc) (eog : Option (List String)) :
    (getInfo chanlocs eog).map (fun c => c.ch_name)
      = chanlocs.map (fun c => c.labels)
    ∧ ∀ c ∈ getInfo chanlocs eog, c.cal = 1 / 1000000 := by
  constructor
  · simp only [getInfo, checkUpdateMontage, List.map_map]
    have hf : ∀ p ∈ (chanlocs.map fun c => c.labels).zip
        (chanlocs.map fun c => (c.X, c.Y, c.Z)),
        ((fun c => ChannelInfo.ch_name c) ∘ updateChannel (eog.getD []) ∘
          fun p => ({ ch_name := p.1, cal := 1, kind := ChKind.eeg, coil_type := CoilType.eegCoil, loc := p.2 } : ChannelInfo)) p
          = Prod.fst p := by
      intro p _
      simp [Function.comp, updateChannel_ch_name]
    rw [List.map_congr_left hf, List.map_fst_zip]
    simp
  · intro c hc
    simp only [getInfo, List.mem_map] at hc
    obtain ⟨c0, _, rfl⟩ := hc
    exact updateChannel_cal _ _

/-- Claim C8 witness: for a concrete two-channel header the name sequence is
kept in order and a produced channel carries the calibration 1e-6. -/
theorem c8_channel_order_witness :
    (getInfo [⟨"Fp1", 1, 2, 3⟩, ⟨"Cz", 4, 5, 6⟩] none).map (fun c => c.ch_name)
      = ["Fp1", "Cz"]
    ∧ ({ ch_name := "Fp1", cal := (1 : ℚ) / 1000000, kind := ChKind.eeg, coil_type := CoilType.eegCoil, loc := (1, 2, 3) } : ChannelInfo).cal
        = 1 / 1000000 := by
  have hmem : ({ ch_name := "Fp1", cal := (1 : ℚ) / 1000000, kind := ChKind.eeg, coil_type := CoilType.eegCoil, loc := (1, 2, 3) } : ChannelInfo)
      ∈ getInfo [⟨"Fp1", 1, 2, 3⟩, ⟨"Cz", 4, 5, 6⟩] none := by
    have h1 : getInfo [⟨"Fp1", 1, 2, 3⟩, ⟨"Cz", 4, 5, 6⟩] none
        = [updateChannel [] { ch_name := "Fp1", cal := 1, kind := ChKind.eeg, coil_type := CoilType.eegCoil, loc := (1, 2, 3) },
           updateChannel [] { ch_name := "Cz", cal := 1, kind := ChKind.eeg, coil_type := CoilType.eegCoil, loc := (4, 5, 6) }] := rfl
    have h2 : updateChannel [] { ch_name := "Fp1", cal := 1, kind := ChKind.eeg, coil_type := CoilType.eegCoil, loc := ((1 : ℚ), (2 : ℚ), (3 : ℚ)) }
        = { ch_name := "Fp1", cal := (1 : ℚ) / 1000000, kind := ChKind.eeg, coil_type := CoilType.eegCoil, loc := (1, 2, 3) } := by
      unfold updateChannel
      rw [if_neg (by decide)]
    rw [h1, h2]
    exact List.mem_cons_self _ _
  exact ⟨(c8_channel_order [⟨"Fp1", 1, 2, 3⟩, ⟨"Cz", 4, 5, 6⟩] none).1,
    (c8_channel_order [⟨"Fp1", 1, 2, 3⟩, ⟨"Cz", 4, 5, 6⟩] none).2 _ hmem⟩

/-! ### Raw-path validation -/

/-- Claim C5: for every header whose trial count is not 1, RawSet.__init__
fails with the hard validation error carrying the trial count, and its
action trace contains no sample-data read. -/
theorem c5_trials_check (h : RawHeader) (preload : Bool)
    (hne : h.trials ≠ 1) :
    (rawSetInit h preload).2 = Except.error (SetError.wrongTrials h.trials)
    ∧ RawAction.readSample ∉ (rawSetInit h preload).1 := by
  simp only [rawSetInit]
  rw [if_pos hne]
  refine ⟨rfl, ?_⟩
  split <;> simp

/-- Claim C5 witness: a header with 3 trials opened as continuous fails with
the trial-count error and performs no read. -/
theorem c5_trials_check_witness :
    ((3 : Nat) ≠ 1)
    ∧ ((rawSetInit ⟨3, 10, 2, false⟩ true).2
        = Except.error (SetError.wrongTrials 3)
      ∧ RawAction.readSample ∉ (rawSetInit ⟨3, 10, 2, false⟩ true).1) := by
  exact ⟨by decide, c5_trials_check ⟨3, 10, 2, false⟩ true (by decide)⟩

/-! ### Undefined unique_ev fallback -/

/-- Claim C10: opening a segmented recording with an explicit events table
while leaving event_id unset reaches the default-map fallback, which reads
the name unique_ev assigned only inside the reconstruction branch, so the
call fails with the undefined-name error for every such input. -/
theorem c10_undefined_unique_ev (epochs : List EpochAnnot) (trials : Nat)
    (tbl : List (Int × Nat × Nat)) :
    epochsSetEvents epochs trials (some tbl) none
      = Except.error SetError.nameError := by
  unfold epochsSetEvents
  rw [if_neg (by simp)]

/-! ### File-handle discipline -/

lemma readLoop_events_readH (file : List α) (nchan : Nat) (idx : List Nat)
    (cals : List α) (dataLeft : Nat) :
    ∀ (starts : List Nat) (cur pos : Nat) (dest : List (List α)),
      ∀ e ∈ (readLoop file nchan idx cals dataLeft starts cur pos dest).1,
        e = HEvent.readH := by
  intro starts
  induction starts with
  | nil =>
    intro cur pos dest e he
    simp [readLoop] at he
  | cons b rest ih =>
    intro cur pos dest e he
    simp only [readLoop] at he
    split at he
    · rcases List.mem_cons.1 he with rfl | hmem
      · rfl
      · exact ih _ _ _ _ hmem
    · simpa using he

/-- Claim C4 counterexample: the segmented full-load path opens the sample
file and its handle trace contains no close event, so the handle is not
closed before control returns. -/
theorem c4_handles_counterexample :
    (epochsLoadData 8 2 2 2).1.count HEvent.openH = 1
    ∧ (epochsLoadData 8 2 2 2).1.count HEvent.closeH = 0 := by
  decide

/-- Claim C4 amended: the continuous chunked-read path closes its file
handle even on error (its trace has matching open and close counts for all
inputs, including short files that make the loop raise), while the
segmented full-load path opens the sample file and never closes it. -/
theorem c4_handles_amended :
    (∀ (file : List ℚ) (nchan : Nat) (idx : List Nat) (cals : List ℚ)
        (start stop B : Nat),
      (readSegmentFile file nchan idx cals start stop B).1.count HEvent.openH
        = (readSegmentFile file nchan idx cals start stop B).1.count HEvent.closeH)
    ∧ (∀ fileLen trials nbchan pnts : Nat,
      (epochsLoadData fileLen trials nbchan pnts).1.count HEvent.openH = 1
      ∧ (epochsLoadData fileLen trials nbchan pnts).1.count HEvent.closeH = 0) := by
  constructor
  · intro file nchan idx cals start stop B
    simp only [readSegmentFile]
    have hopen : List.count HEvent.openH
        (readLoop file nchan idx cals ((stop - start) * nchan)
          (arange0 ((stop - start) * nchan)
            (min ((stop - start) * nchan) (B * nchan)))
          (min ((stop - start) * nchan) (B * nchan)) (start * nchan)
          (List.replicate (stop - start) (List.replicate idx.length 0))).1 = 0 := by
      rw [List.count_eq_zero]
      intro hmem
      exact absurd (readLoop_events_readH file nchan idx cals _ _ _ _ _ _ hmem)
        (by decide)
    have hclose : List.count HEvent.closeH
        (readLoop file nchan idx cals ((stop - start) * nchan)
          (arange0 ((stop - start) * nchan)
            (min ((stop - start) * nchan) (B * nchan)))
          (min ((stop - start) * nchan) (B * nchan)) (start * nchan)
          (List.replicate (stop - start) (List.replicate idx.length 0))).1 = 0 := by
      rw [List.count_eq_zero]
      intro hmem
      exact absurd (readLoop_events_readH file nchan idx cals _ _ _ _ _ _ hmem)
        (by decide)
    simp [List.count_cons, List.count_append, hopen, hclose]
  · intro fileLen trials nbchan pnts
    exact ⟨rfl, rfl⟩

/-! ### Counterexamples on the event reconstruction -/

/-- Claim C1 counterexample: for the 3-trial example of the claim the code
fills the label code into both remaining columns of each row, so the middle
column of the second row is 1, not 0, and the claimed table is not
produced. -/
theorem c1_event_rows_counterexample :
    epochsSetEvents [⟨["a"], 10⟩, ⟨["b"], 20⟩, ⟨["a"], 30⟩] 3 none none
      = Except.ok (some [(10, 0, 0), (20, 1, 1), (30, 0, 0)],
          [("a", 0), ("b", 1)])
    ∧ epochsSetEvents [⟨["a"], 10⟩, ⟨["b"], 20⟩, ⟨["a"], 30⟩] 3 none none
      ≠ Except.ok (some [(10, 0, 0), (20, 0, 1), (30, 0, 0)],
          [("a", 0), ("b", 1)]) := by
  exact ⟨by decide, by decide⟩

/-- Claim C2 counterexample: with two trials labelled a and b and the caller
map sending a to 5 and b to 6, the effective map of the reconstruction is
the derived first-encounter map, not the caller map. -/
theorem c2_event_id_counterexample :
    epochsSetEvents [⟨["a"], 10⟩, ⟨["b"], 20⟩] 2 none
        (some [("a", 5), ("b", 6)])
      = Except.ok (some [(10, 0, 0), (20, 1, 1)], [("a", 0), ("b", 1)])
    ∧ ([("a", 0), ("b", 1)] : List (String × Nat)) ≠ [("a", 5), ("b", 6)] := by
  exact ⟨by decide, by decide⟩

/-! ### Counterexample on the short-file behavior -/

/-- Claim C3 counterexample: a single-channel file of 2 samples read over
the range 0 to 4 with the source block budget returns success, the first two
columns filled and the remaining two left at their zero initialization; no
error is raised. -/
theorem c3_short_read_counterexample :
    (readSegmentFileSrc ([1, 2] : List ℤ) 1 [0] [1] 0 4).2
      = Except.ok [[1], [2], [0], [0]] := by
  decide

/-! ### Event reconstruction lemmas -/

lemma extractLoop_ok (epochs : List EpochAnnot)
    (h1 : ∀ ep ∈ epochs, ep.eventtype.length = 1) :
    ∀ ts ls us, extractLoop epochs ts ls us
      = Except.ok (ts ++ epochs.map singleLabel,
          ls ++ epochs.map (fun ep => ep.eventurevent),
          (epochs.map singleLabel).foldl insertNew us) := by
  induction epochs with
  | nil =>
    intro ts ls us
    simp [extractLoop]
  | cons ep rest ih =>
    intro ts ls us
    obtain ⟨l, hl⟩ := List.length_eq_one.1 (h1 ep (List.mem_cons_self _ _))
    have hsl : singleLabel ep = l := by rw [singleLabel, hl]; rfl
    simp only [extractLoop, hl]
    rw [ih (fun e he => h1 e (List.mem_cons_of_mem _ he))]
    simp [hsl, insertNew, List.foldl_cons]

lemma extractLoop_error (epochs : List EpochAnnot)
    (hbad : ∃ ep ∈ epochs, ep.eventtype.length ≠ 1) :
    ∀ ts ls us, extractLoop epochs ts ls us
      = Except.error SetError.epochMultipleEvents := by
  induction epochs with
  | nil =>
    rcases hbad with ⟨ep, hep, _⟩
    simp at hep
  | cons ep rest ih =>
    intro ts ls us
    by_cases h : ep.eventtype.length = 1
    · obtain ⟨l, hl⟩ := List.length_eq_one.1 h
      simp only [extractLoop, hl]
      apply ih
      rcases hbad with ⟨e2, he2, hne⟩
      rcases List.mem_cons.1 he2 with rfl | hmem
      · exact absurd h hne
      · exact ⟨e2, hmem, hne⟩
    · rcases hev : ep.eventtype with _ | ⟨x, _ | ⟨y, t⟩⟩
      · simp [extractLoop, hev]
      · exact absurd (by rw [hev]; rfl) h
      · simp [extractLoop, hev]

lemma buildRowsFrom_ok (types : List String) (lats : List Int)
    (eid : List (String × Nat)) (hlen : types.length = lats.length)
    (hsome : ∀ t ∈ types, (lookupCode eid t).isSome) :
    ∀ n i, i + n = types.length →
      buildRowsFrom types lats eid i n
        = Except.ok (((types.drop i).zip (lats.drop i)).map
            fun p => (p.2, (lookupCode eid p.1).getD 0,
              (lookupCode eid p.1).getD 0)) := by
  intro n
  induction n with
  | zero =>
    intro i hin
    rw [List.drop_eq_nil_of_le (by omega)]
    simp [buildRowsFrom]
  | succ n ih =>
    intro i hin
    have hi : i < types.length := by omega
    have hil : i < lats.length := by omega
    have hty : types.get? i = some (types.get ⟨i, hi⟩) := List.get?_eq_get hi
    have hlat : lats.get? i = some (lats.get ⟨i, hil⟩) := List.get?_eq_get hil
    obtain ⟨c, hc⟩ := Option.isSome_iff_exists.1
      (hsome _ (List.get_mem types i hi))
    have hdt : List.drop i types = types.get ⟨i, hi⟩ :: List.drop (i + 1) types :=
      List.drop_eq_get_cons hi
    have hdl : List.drop i lats = lats.get ⟨i, hil⟩ :: List.drop (i + 1) lats :=
      List.drop_eq_get_cons hil
    simp only [buildRowsFrom, hty, hlat, hc]
    rw [ih (i + 1) (by omega), hdt, hdl]
    simp only [List.zip_cons_cons, List.map_cons, Except.map, hc, Option.getD_some]

lemma mem_foldl_insertNew (ls : List String) :
    ∀ (acc : List String) (l : String),
      l ∈ ls.foldl insertNew acc ↔ l ∈ acc ∨ l ∈ ls := by
  induction ls with
  | nil => simp
  | cons x xs ih =>
    intro acc l
    rw [List.foldl_cons, ih]
    by_cases hx : x ∈ acc
    · simp only [insertNew, if_pos hx, List.mem_cons]
      constructor
      · rintro (h | h)
        · exact Or.inl h
        · exact Or.inr (Or.inr h)
      · rintro (h | rfl | h)
        · exact Or.inl h
        · exact Or.inl hx
        · exact Or.inr h
    · simp only [insertNew, if_neg hx, List.mem_append, List.mem_cons,
        List.mem_singleton]
      tauto

lemma mem_firstEncounter (ls : List String) (l : String) :
    l ∈ firstEncounter ls ↔ l ∈ ls := by
  simpa [firstEncounter] using mem_foldl_insertNew ls [] l

lemma nodup_foldl_insertNew (ls : List String) :
    ∀ acc : List String, acc.Nodup → (ls.foldl insertNew acc).Nodup := by
  induction ls with
  | nil => intro acc h; simpa using h
  | cons x xs ih =>
    intro acc hacc
    rw [List.foldl_cons]
    apply ih
    unfold insertNew
    split
    · exact hacc
    · next hx => simp [List.nodup_append, hacc, hx]

lemma nodup_firstEncounter (ls : List String) : (firstEncounter ls).Nodup :=
  nodup_foldl_insertNew ls [] (by simp)

lemma lookupCode_enumFrom_of_nodup (us : List String) (hnd : us.Nodup) :
    ∀ (i j : Nat) (hj : j < us.length),
      lookupCode (enumFrom i us) (us.get ⟨j, hj⟩) = some (i + j) := by
  induction us with
  | nil => intro i j hj; simp at hj
  | cons x xs ih =>
    intro i j hj
    cases j with
    | zero => simp [enumFrom, lookupCode]
    | succ j =>
      have hx : x ∉ xs := (List.nodup_cons.1 hnd).1
      have hj2 : j < xs.length := by simpa using Nat.lt_of_succ_lt_succ hj
      have hmem : xs.get ⟨j, hj2⟩ ∈ xs := List.get_mem _ _ _
      simp only [enumFrom, lookupCode, List.get_cons_succ]
      rw [if_neg (fun heq => hx (by rw [heq]; exact hmem))]
      rw [ih (List.nodup_cons.1 hnd).2 (i + 1) j hj2]
      exact congrArg some (by omega)

lemma lookupCode_isSome_of_mem (us : List String) (k : String) (hk : k ∈ us) :
    ∀ i, (lookupCode (enumFrom i us) k).isSome := by
  induction us with
  | nil => simp at hk
  | cons x xs ih =>
    intro i
    by_cases hx : x = k
    · simp [enumFrom, lookupCode, hx]
    · have hk2 : k ∈ xs := by
        rcases List.mem_cons.1 hk with rfl | hmem
        · exact absurd rfl hx
        · exact hmem
      simp only [enumFrom, lookupCode, if_neg hx]
      exact ih hk2 (i + 1)

lemma mem_enumFrom (us : List String) :
    ∀ (i : Nat) (p : String × Nat), p ∈ enumFrom i us →
      ∃ j, ∃ hj : j < us.length, us.get ⟨j, hj⟩ = p.1 ∧ p.2 = i + j := by
  induction us with
  | nil => intro i p hp; simp [enumFrom] at hp
  | cons x xs ih =>
    intro i p hp
    rcases List.mem_cons.1 hp with rfl | hmem
    · exact ⟨0, by simp, rfl, by simp⟩
    · obtain ⟨j, hj, he, hv⟩ := ih (i + 1) p hmem
      exact ⟨j + 1, by simpa using Nat.succ_lt_succ hj,
        by simpa using he, by omega⟩

lemma validateLoop_ok (eid : List (String × Nat))
    (rows : List (Int × Nat × Nat))
    (h : ∀ p ∈ eid, ∃ r ∈ rows, r.2.2 = p.2) :
    validateLoop eid (some rows) = Except.ok () := by
  induction eid with
  | nil => rfl
  | cons p rest ih =>
    obtain ⟨r, hr, he⟩ := h p (List.mem_cons_self _ _)
    simp only [validateLoop]
    rw [if_pos (List.any_eq_true.2 ⟨r, hr, by simp [he]⟩)]
    exact ih fun q hq => h q (List.mem_cons_of_mem _ hq)

/-- Central lemma: when the caller supplies no events table, there is more
than one trial, and every epoch carries a single label, the event handling
of EpochsSet.__init__ succeeds with one row (latency, code, code) per epoch
in epoch order and the derived first-encounter map as the effective
event-id map, whatever event_id the caller supplied. -/
lemma epochsSetEvents_reconstruct (epochs : List EpochAnnot)
    (eid0 : Option (List (String × Nat)))
    (h1 : ∀ ep ∈ epochs, ep.eventtype.length = 1)
    (h2 : 1 < epochs.length) :
    epochsSetEvents epochs epochs.length none eid0
      = Except.ok (some (epochs.map (expectedRow (derivedEventId epochs))),
          derivedEventId epochs) := by
  have hne : epochs.isEmpty = false := by
    cases epochs with
    | nil => simp at h2
    | cons a l => rfl
  have hsome : ∀ t ∈ epochs.map singleLabel,
      (lookupCode (enumerateMap (firstEncounter (epochs.map singleLabel))) t).isSome := by
    intro t ht
    exact lookupCode_isSome_of_mem _ t ((mem_firstEncounter _ t).2 ht) 0
  have hbuild := buildRowsFrom_ok (epochs.map singleLabel)
    (epochs.map fun ep => ep.eventurevent)
    (enumerateMap (firstEncounter (epochs.map singleLabel)))
    (by simp) hsome epochs.length 0 (by simp)
  have hbuild2 : buildRowsFrom (epochs.map singleLabel)
      (epochs.map fun ep => ep.eventurevent)
      (enumerateMap (firstEncounter (epochs.map singleLabel))) 0 epochs.length
      = Except.ok (epochs.map (expectedRow (derivedEventId epochs))) := by
    rw [hbuild]
    congr 1
    rw [List.drop_zero, List.drop_zero, List.zip_map', List.map_map]
    apply List.map_congr_left
    intro ep _
    rfl
  have hval : validateLoop (enumerateMap (firstEncounter (epochs.map singleLabel)))
      (some (epochs.map (expectedRow (derivedEventId epochs)))) = Except.ok () := by
    apply validateLoop_ok
    intro p hp
    obtain ⟨j, hj, hget, hv⟩ := mem_enumFrom _ 0 p hp
    have hp1 : p.1 ∈ epochs.map singleLabel := by
      rw [← hget]
      exact (mem_firstEncounter _ _).1 (List.get_mem _ j hj)
    obtain ⟨ep, hep, heq⟩ := List.mem_map.1 hp1
    refine ⟨expectedRow (derivedEventId epochs) ep, List.mem_map.2 ⟨ep, hep, rfl⟩, ?_⟩
    have hlook : lookupCode (derivedEventId epochs) (singleLabel ep) = some j := by
      rw [derivedEventId, enumerateMap, heq, ← hget]
      simpa using lookupCode_enumFrom_of_nodup _ (nodup_firstEncounter _) 0 j hj
    simp [expectedRow, hlook, hv]
  have huniq : List.foldl insertNew [] (List.map singleLabel epochs)
      = firstEncounter (List.map singleLabel epochs) := rfl
  unfold epochsSetEvents
  rw [if_pos ⟨rfl, h2⟩, extractLoop_ok epochs h1 [] [] []]
  simp only [hne, List.nil_append, Bool.false_eq_true, if_false, Option.getD_some]
  rw [huniq]
  simp only [buildRows]
  rw [hbuild2]
  dsimp only
  rw [hval]
  rfl

/-- Claim C1 amended: for a segmented recording with more than one trial and
no externally supplied event table, the reconstructed table has one row per
trial in trial order of the form (latency, code, code): the label code is
written into both the second and the third column, so the middle entry is
zero only for trials whose label has code zero. -/
theorem c1_event_rows_amended (epochs : List EpochAnnot)
    (h1 : ∀ ep ∈ epochs, ep.eventtype.length = 1)
    (h2 : 1 < epochs.length) :
    epochsSetEvents epochs epochs.length none none
      = Except.ok (some (epochs.map (expectedRow (derivedEventId epochs))),
          derivedEventId epochs) :=
  epochsSetEvents_reconstruct epochs none h1 h2

/-- Claim C1 amended witness: the 3-trial example produces the rows
(10, 0, 0), (20, 1, 1), (30, 0, 0) with the derived map a to 0 and b
to 1. -/
theorem c1_event_rows_amended_witness :
    (∀ ep ∈ [(⟨["a"], 10⟩ : EpochAnnot), ⟨["b"], 20⟩, ⟨["a"], 30⟩],
        ep.eventtype.length = 1)
    ∧ 1 < ([(⟨["a"], 10⟩ : EpochAnnot), ⟨["b"], 20⟩, ⟨["a"], 30⟩] : List EpochAnnot).length
    ∧ epochsSetEvents [⟨["a"], 10⟩, ⟨["b"], 20⟩, ⟨["a"], 30⟩] 3 none none
      = Except.ok (some ([(⟨["a"], 10⟩ : EpochAnnot), ⟨["b"], 20⟩, ⟨["a"], 30⟩].map
          (expectedRow (derivedEventId [⟨["a"], 10⟩, ⟨["b"], 20⟩, ⟨["a"], 30⟩]))),
          derivedEventId [⟨["a"], 10⟩, ⟨["b"], 20⟩, ⟨["a"], 30⟩]) :=
  ⟨by decide, by decide,
    c1_event_rows_amended [⟨["a"], 10⟩, ⟨["b"], 20⟩, ⟨["a"], 30⟩]
      (by decide) (by decide)⟩

/-- Claim C2 amended: with no external events and more than one trial, each
distinct label receives the code equal to its 0-based first-encounter index;
a caller-supplied label-code map is discarded once the reconstruction loop
runs, and the derived first-encounter map is the effective EventIdMap
whatever map the caller passed. -/
theorem c2_event_id_amended (epochs : List EpochAnnot)
    (eid0 : Option (List (String × Nat)))
    (h1 : ∀ ep ∈ epochs, ep.eventtype.length = 1)
    (h2 : 1 < epochs.length) :
    epochsSetEvents epochs epochs.length none eid0
      = Except.ok (some (epochs.map (expectedRow (derivedEventId epochs))),
          derivedEventId epochs)
    ∧ ∀ (j : Nat) (hj : j < (firstEncounter (epochs.map singleLabel)).length),
        lookupCode (derivedEventId epochs)
          ((firstEncounter (epochs.map singleLabel)).get ⟨j, hj⟩) = some j := by
  refine ⟨epochsSetEvents_reconstruct epochs eid0 h1 h2, ?_⟩
  intro j hj
  simpa using lookupCode_enumFrom_of_nodup _ (nodup_firstEncounter _) 0 j hj

/-- Claim C2 amended witness: the two-trial example with caller map a to 5
and b to 6 still produces the derived map a to 0 and b to 1, whose codes are
the first-encounter indices. -/
theorem c2_event_id_amended_witness :
    (∀ ep ∈ [(⟨["a"], 10⟩ : EpochAnnot), ⟨["b"], 20⟩], ep.eventtype.length = 1)
    ∧ 1 < ([(⟨["a"], 10⟩ : EpochAnnot), ⟨["b"], 20⟩] : List EpochAnnot).length
    ∧ (epochsSetEvents [⟨["a"], 10⟩, ⟨["b"], 20⟩] 2 none (some [("a", 5), ("b", 6)])
        = Except.ok (some ([(⟨["a"], 10⟩ : EpochAnnot), ⟨["b"], 20⟩].map
            (expectedRow (derivedEventId [⟨["a"], 10⟩, ⟨["b"], 20⟩]))),
            derivedEventId [⟨["a"], 10⟩, ⟨["b"], 20⟩])
      ∧ ∀ (j : Nat) (hj : j < (firstEncounter
            ([(⟨["a"], 10⟩ : EpochAnnot), ⟨["b"], 20⟩].map singleLabel)).length),
          lookupCode (derivedEventId [⟨["a"], 10⟩, ⟨["b"], 20⟩])
            ((firstEncounter ([(⟨["a"], 10⟩ : EpochAnnot), ⟨["b"], 20⟩].map
              singleLabel)).get ⟨j, hj⟩) = some j) :=
  ⟨by decide, by decide,
    c2_event_id_amended [⟨["a"], 10⟩, ⟨["b"], 20⟩] (some [("a", 5), ("b", 6)])
      (by decide) (by decide)⟩

/-- Claim C9: during event reconstruction every trial annotation must carry
exactly one event label: a trial whose eventtype is not a single string
makes the load fail with the schema-violation error, never silently picking
a label. -/
theorem c9_single_label (epochs : List EpochAnnot) (trials : Nat)
    (eid0 : Option (List (String × Nat)))
    (hbad : ∃ ep ∈ epochs, ep.eventtype.length ≠ 1) (ht : 1 < trials) :
    epochsSetEvents epochs trials none eid0
      = Except.error SetError.epochMultipleEvents := by
  unfold epochsSetEvents
  rw [if_pos ⟨rfl, ht⟩, extractLoop_error epochs hbad [] [] []]

/-- Claim C9 witness: a trial carrying the two labels a and b makes the load
fail with the schema-violation error. -/
theorem c9_single_label_witness :
    (∃ ep ∈ [(⟨["a", "b"], 5⟩ : EpochAnnot)], ep.eventtype.length ≠ 1)
    ∧ 1 < 2
    ∧ epochsSetEvents [⟨["a", "b"], 5⟩] 2 none none
      = Except.error SetError.epochMultipleEvents :=
  ⟨by decide, by decide, c9_single_label [⟨["a", "b"], 5⟩] 2 none (by decide) (by decide)⟩

/-! ### Chunked reader lemmas -/

lemma overwriteFrom_nil_right :
    ∀ (d : List (List α)) (i : Nat), overwriteFrom d i [] = d := by
  intro d
  induction d with
  | nil => intro i; rfl
  | cons x ds ih =>
    intro i
    cases i with
    | zero => rfl
    | succ i =>
      simp only [overwriteFrom]
      rw [ih]

lemma overwriteFrom_length :
    ∀ (d : List (List α)) (i : Nat) (xs : List (List α)),
      (overwriteFrom d i xs).length = d.length := by
  intro d
  induction d with
  | nil => intro i xs; rfl
  | cons x ds ih =>
    intro i xs
    cases i with
    | zero =>
      cases xs with
      | nil => rfl
      | cons y ys => simp only [overwriteFrom, List.length_cons, ih]
    | succ i => simp only [overwriteFrom, List.length_cons, ih]

lemma overwriteFrom_append :
    ∀ (d : List (List α)) (i : Nat) (xs ys : List (List α)),
      overwriteFrom (overwriteFrom d i xs) (i + xs.length) ys
        = overwriteFrom d i (xs ++ ys) := by
  intro d
  induction d with
  | nil => intro i xs ys; rfl
  | cons x ds ih =>
    intro i xs ys
    cases i with
    | zero =>
      cases xs with
      | nil =>
        cases ys with
        | nil => rfl
        | cons z zs => rfl
      | cons z zs =>
        simp only [overwriteFrom, List.length_cons, List.cons_append]
        show z :: overwriteFrom (overwriteFrom ds 0 zs) (0 + zs.length) ys
          = z :: overwriteFrom ds 0 (zs ++ ys)
        rw [ih 0 zs ys]
    | succ i =>
      have harith : i + 1 + xs.length = (i + xs.length) + 1 := by omega
      simp only [overwriteFrom, harith]
      rw [ih]

lemma overwrite_split (dest : List (List α)) (a w r : Nat) (f : Nat → List α) :
    overwriteFrom (overwriteFrom dest a ((List.range w).map f)) (a + w)
        ((List.range r).map fun j => f (w + j))
      = overwriteFrom dest a ((List.range (w + r)).map f) := by
  have h := overwriteFrom_append dest a ((List.range w).map f)
    ((List.range r).map fun j => f (w + j))
  rw [List.length_map, List.length_range] at h
  rw [h, List.range_add, List.map_append, List.map_map]
  rfl

lemma overwriteFrom_full :
    ∀ (d xs : List (List α)), xs.length = d.length → overwriteFrom d 0 xs = xs := by
  intro d
  induction d with
  | nil =>
    intro xs h
    cases xs with
    | nil => rfl
    | cons y ys => simp at h
  | cons x ds ih =>
    intro xs h
    cases xs with
    | nil => simp at h
    | cons y ys =>
      simp only [overwriteFrom]
      rw [ih ys (by simpa using h)]

/-- Writing a short column list into a fresh all-zero buffer from position
0 produces exactly that list followed by the untouched zero columns. -/
lemma overwriteFrom_replicate_front :
    ∀ (xs : List (List α)) (n : Nat) (z : List α), xs.length ≤ n →
      overwriteFrom (List.replicate n z) 0 xs
        = xs ++ List.replicate (n - xs.length) z := by
  intro xs
  induction xs with
  | nil =>
    intro n z h
    simp [overwriteFrom_nil_right]
  | cons x xs ih =>
    intro n z h
    cases n with
    | zero => simp at h
    | succ n =>
      simp only [List.replicate_succ, overwriteFrom, List.length_cons,
        List.cons_append, Nat.succ_sub_succ]
      rw [ih n z (by simpa using h)]

lemma min_mul_of_mul (a b c : Nat) : min (a * c) (b * c) = min a b * c := by
  rcases Nat.le_total a b with h | h
  · rw [Nat.min_eq_left (Nat.mul_le_mul_right _ h), Nat.min_eq_left h]
  · rw [Nat.min_eq_right (Nat.mul_le_mul_right _ h), Nat.min_eq_right h]

lemma le_ceil_mul (a b : Nat) (hb : 0 < b) : a ≤ ((a + b - 1) / b) * b := by
  rcases Nat.eq_zero_or_pos a with rfl | ha
  · simp
  · have h1 : b * ((a + b - 1) / b) + (a + b - 1) % b = a + b - 1 :=
      Nat.div_add_mod _ _
    have h2 : (a + b - 1) % b < b := Nat.mod_lt _ hb
    rw [Nat.mul_comm]
    omega

lemma reshapeF_take (file : List α) (nchan : Nat) (hn : 0 < nchan)
    (pos w : Nat) (hw : pos + w * nchan ≤ file.length) :
    reshapeF nchan ((file.drop pos).take (w * nchan))
      = (List.range w).map fun t => (file.drop (pos + t * nchan)).take nchan := by
  have hlen : ((file.drop pos).take (w * nchan)).length = w * nchan := by
    rw [List.length_take, List.length_drop]
    omega
  unfold reshapeF
  rw [hlen, Nat.mul_div_cancel w hn]
  apply List.map_congr_left
  intro t ht
  have htw : t < w := List.mem_range.1 ht
  rw [List.drop_take, List.drop_drop, List.take_take]
  have hmin : min nchan (w * nchan - t * nchan) = nchan := by
    apply Nat.min_eq_left
    have hsub : (w - t) * nchan = w * nchan - t * nchan := Nat.sub_mul w t nchan
    have hone : 1 * nchan ≤ (w - t) * nchan :=
      Nat.mul_le_mul_right _ (by omega)
    omega
  rw [hmin]

lemma readLoop_cons_full (file : List α) (nchan : Nat) (idx : List Nat)
    (cals : List α) (dataLeft bsRaw : Nat) (rest : List Nat)
    (cur pos w : Nat) (dest : List (List α)) (hn : 0 < nchan)
    (hbsize : min cur (dataLeft - bsRaw / nchan * nchan) = w * nchan)
    (hwlen : pos + w * nchan ≤ file.length) :
    (readLoop file nchan idx cals dataLeft (bsRaw :: rest) cur pos dest).2
      = (readLoop file nchan idx cals dataLeft rest (w * nchan)
          (pos + w * nchan)
          (overwriteFrom dest (bsRaw / nchan)
            (((List.range w).map fun t =>
              (file.drop (pos + t * nchan)).take nchan).map
              (calSelect idx cals)))).2 := by
  have hfr : fileRead file pos (min cur (dataLeft - bsRaw / nchan * nchan))
      = (file.drop pos).take (w * nchan) := by
    rw [hbsize]
    rfl
  have hflen : ((file.drop pos).take (w * nchan)).length = w * nchan := by
    rw [List.length_take, List.length_drop]
    omega
  simp only [readLoop, hfr, hflen]
  rw [if_pos (Nat.mul_mod_left w nchan), hbsize,
    reshapeF_take file nchan hn pos w hwlen]

/-- One iteration of the block loop whose read comes back short or empty:
the attempted count is the running nominal block size, but only u whole
samples exist from the current position to the end of file, so np.fromfile
returns u * nchan floats, the reshape check passes, u columns are written at
the block start and the handle position advances only to the end of the
data actually read. -/
lemma readLoop_cons_short (file : List α) (nchan : Nat) (idx : List Nat)
    (cals : List α) (dataLeft bsRaw : Nat) (rest : List Nat)
    (cur pos u : Nat) (dest : List (List α)) (hn : 0 < nchan)
    (hfl : fileRead file pos (min cur (dataLeft - bsRaw / nchan * nchan))
      = (file.drop pos).take (u * nchan))
    (hulen : pos + u * nchan ≤ file.length) :
    (readLoop file nchan idx cals dataLeft (bsRaw :: rest) cur pos dest).2
      = (readLoop file nchan idx cals dataLeft rest
          (min cur (dataLeft - bsRaw / nchan * nchan)) (pos + u * nchan)
          (overwriteFrom dest (bsRaw / nchan)
            (((List.range u).map fun t =>
              (file.drop (pos + t * nchan)).take nchan).map
              (calSelect idx cals)))).2 := by
  have hflen : ((file.drop pos).take (u * nchan)).length = u * nchan := by
    rw [List.length_take, List.length_drop]
    omega
  simp only [readLoop, hfl, hflen]
  rw [if_pos (Nat.mul_mod_left u nchan), reshapeF_take file nchan hn pos u hulen]

/-- The block loop writes exactly the selected calibrated columns of the
requested range, for any block count covering the range: starting at block
index k0 with the running block size and handle position at their invariant
values, the loop succeeds and overwrites the destination from column
k0 * Bs on with the columns read directly from the file. -/
lemma readLoop_blocks (file : List α) (nchan : Nat) (idx : List Nat)
    (cals : List α) (start W Bs : Nat) (hn : 0 < nchan) (hB : 0 < Bs)
    (hfile : (start + W) * nchan ≤ file.length) :
    ∀ (m k0 cur pos : Nat) (dest : List (List α)),
      W ≤ k0 * Bs + m * Bs →
      (k0 * Bs < W → cur = Bs * nchan) →
      (k0 * Bs < W → pos = (start + k0 * Bs) * nchan) →
      dest.length = W →
      (readLoop file nchan idx cals (W * nchan)
          ((List.range m).map fun j => (k0 + j) * (Bs * nchan)) cur pos dest).2
        = Except.ok (overwriteFrom dest (k0 * Bs)
            ((List.range (W - k0 * Bs)).map fun j =>
              specCol file nchan idx cals (start + k0 * Bs + j))) := by
  intro m
  induction m with
  | zero =>
    intro k0 cur pos dest hm hcur hpos hd
    have hWk : W - k0 * Bs = 0 := by omega
    simp only [List.range_zero, List.map_nil, readLoop, hWk]
    rw [overwriteFrom_nil_right]
  | succ m ih =>
    intro k0 cur pos dest hm hcur hpos hd
    have hsucc : (k0 + 1) * Bs = k0 * Bs + Bs := Nat.succ_mul _ _
    have hsm : (m + 1) * Bs = m * Bs + Bs := Nat.succ_mul _ _
    have hbs : k0 * (Bs * nchan) / nchan = k0 * Bs := by
      rw [← Nat.mul_assoc, Nat.mul_div_cancel _ hn]
    rw [List.range_succ_eq_map]
    simp only [List.map_cons, List.map_map, Nat.add_zero]
    have htail : (List.range m).map ((fun j => (k0 + j) * (Bs * nchan)) ∘ Nat.succ)
        = (List.range m).map fun j => (k0 + 1 + j) * (Bs * nchan) := by
      apply List.map_congr_left
      intro j _
      show (k0 + (j + 1)) * (Bs * nchan) = (k0 + 1 + j) * (Bs * nchan)
      congr 1
      omega
    rw [htail]
    by_cases hk : k0 * Bs < W
    · have hcur2 := hcur hk
      have hpos2 := hpos hk
      subst hcur2
      subst hpos2
      have hbsize : min (Bs * nchan)
          (W * nchan - k0 * (Bs * nchan) / nchan * nchan)
          = min Bs (W - k0 * Bs) * nchan := by
        rw [hbs, ← Nat.sub_mul, min_mul_of_mul]
      have hwlen : (start + k0 * Bs) * nchan
          + min Bs (W - k0 * Bs) * nchan ≤ file.length := by
        have h2 : (start + k0 * Bs) * nchan + min Bs (W - k0 * Bs) * nchan
            = (start + k0 * Bs + min Bs (W - k0 * Bs)) * nchan :=
          (Nat.add_mul _ _ _).symm
        have h1 : (start + k0 * Bs + min Bs (W - k0 * Bs)) * nchan
            ≤ (start + W) * nchan :=
          Nat.mul_le_mul_right _ (by omega)
        omega
      rw [readLoop_cons_full file nchan idx cals (W * nchan) (k0 * (Bs * nchan))
        _ (Bs * nchan) ((start + k0 * Bs) * nchan) (min Bs (W - k0 * Bs)) dest
        hn hbsize hwlen]
      rw [hbs]
      have hcols : ((List.range (min Bs (W - k0 * Bs))).map fun t =>
          (file.drop ((start + k0 * Bs) * nchan + t * nchan)).take nchan).map
            (calSelect idx cals)
          = (List.range (min Bs (W - k0 * Bs))).map fun t =>
            specCol file nchan idx cals (start + k0 * Bs + t) := by
        rw [List.map_map]
        apply List.map_congr_left
        intro t _
        show calSelect idx cals
            ((file.drop ((start + k0 * Bs) * nchan + t * nchan)).take nchan)
          = specCol file nchan idx cals (start + k0 * Bs + t)
        have hAB : (start + k0 * Bs) * nchan + t * nchan
            = (start + k0 * Bs + t) * nchan := (Nat.add_mul _ _ _).symm
        rw [hAB]
        rfl
      rw [hcols]
      rw [ih (k0 + 1)]
      · by_cases hbig : Bs ≤ W - k0 * Bs
        · have hw : min Bs (W - k0 * Bs) = Bs := by omega
          have htail2 : ((List.range (W - (k0 + 1) * Bs)).map fun j =>
              specCol file nchan idx cals (start + (k0 + 1) * Bs + j))
              = (List.range (W - (k0 + 1) * Bs)).map fun j =>
                specCol file nchan idx cals (start + k0 * Bs + (Bs + j)) := by
            apply List.map_congr_left
            intro j _
            congr 1
            omega
          rw [hw, htail2, hsucc,
            show W - k0 * Bs = Bs + (W - (k0 * Bs + Bs)) from by omega]
          exact congrArg Except.ok (overwrite_split dest (k0 * Bs) Bs
            (W - (k0 * Bs + Bs)) fun j => specCol file nchan idx cals (start + k0 * Bs + j))
        · have hz : W - (k0 + 1) * Bs = 0 := by omega
          have hw : min Bs (W - k0 * Bs) = W - k0 * Bs := by omega
          rw [hz]
          simp only [List.range_zero, List.map_nil, overwriteFrom_nil_right]
          rw [hw]
      · omega
      · intro h
        have hw : min Bs (W - k0 * Bs) = Bs := by omega
        rw [hw]
      · intro h
        have hw : min Bs (W - k0 * Bs) = Bs := by omega
        rw [hw, ← Nat.add_mul]
        exact congrArg (fun x => x * nchan) (by omega)
      · rw [overwriteFrom_length]
        exact hd
    · have hmin0 : min cur (W * nchan - k0 * (Bs * nchan) / nchan * nchan) = 0 := by
        rw [hbs]
        have hle : W * nchan ≤ k0 * Bs * nchan :=
          Nat.mul_le_mul_right _ (by omega)
        omega
      have hflat : fileRead file pos
          (min cur (W * nchan - k0 * (Bs * nchan) / nchan * nchan))
          = ([] : List α) := by
        rw [hmin0]
        unfold fileRead
        exact List.take_zero _
      simp only [readLoop, hflat, List.length_nil]
      rw [if_pos (Nat.zero_mod nchan)]
      have hcols : (reshapeF nchan ([] : List α)).map (calSelect idx cals) = [] := by
        simp [reshapeF]
      simp only [hcols, overwriteFrom_nil_right, Nat.add_zero]
      rw [ih (k0 + 1)]
      · have hz1 : W - (k0 + 1) * Bs = 0 := by omega
        have hz2 : W - k0 * Bs = 0 := by omega
        rw [hz1, hz2]
        simp only [List.range_zero, List.map_nil, overwriteFrom_nil_right]
      · omega
      · intro h
        exact absurd h (by omega)
      · intro h
        exact absurd h (by omega)
      · exact hd

/-- The block loop on a file that ends, sample-aligned, after AW of the W
requested samples (AW at most W): the loop still succeeds, because every
short or empty np.fromfile result has a length divisible by nchan, and it
writes exactly the AW columns that exist, leaving the rest of the
destination untouched.  The running position freezes at the end of file
once reached, captured by the min in the position invariant. -/
lemma readLoop_blocks_short (file : List α) (nchan : Nat) (idx : List Nat)
    (cals : List α) (start W Bs AW : Nat) (hn : 0 < nchan) (hB : 0 < Bs)
    (hAW : AW ≤ W) (hL : file.length = (start + AW) * nchan) :
    ∀ (m k0 cur pos : Nat) (dest : List (List α)),
      W ≤ k0 * Bs + m * Bs →
      (k0 * Bs < W → cur = Bs * nchan) →
      (k0 * Bs < W → pos = (start + min (k0 * Bs) AW) * nchan) →
      dest.length = W →
      (readLoop file nchan idx cals (W * nchan)
          ((List.range m).map fun j => (k0 + j) * (Bs * nchan)) cur pos dest).2
        = Except.ok (overwriteFrom dest (k0 * Bs)
            ((List.range (AW - k0 * Bs)).map fun j =>
              specCol file nchan idx cals (start + k0 * Bs + j))) := by
  intro m
  induction m with
  | zero =>
    intro k0 cur pos dest hm hcur hpos hd
    have hWk : AW - k0 * Bs = 0 := by omega
    simp only [List.range_zero, List.map_nil, readLoop, hWk]
    rw [overwriteFrom_nil_right]
  | succ m ih =>
    intro k0 cur pos dest hm hcur hpos hd
    have hsucc : (k0 + 1) * Bs = k0 * Bs + Bs := Nat.succ_mul _ _
    have hsm : (m + 1) * Bs = m * Bs + Bs := Nat.succ_mul _ _
    have hbs : k0 * (Bs * nchan) / nchan = k0 * Bs := by
      rw [← Nat.mul_assoc, Nat.mul_div_cancel _ hn]
    rw [List.range_succ_eq_map]
    simp only [List.map_cons, List.map_map, Nat.add_zero]
    have htail : (List.range m).map ((fun j => (k0 + j) * (Bs * nchan)) ∘ Nat.succ)
        = (List.range m).map fun j => (k0 + 1 + j) * (Bs * nchan) := by
      apply List.map_congr_left
      intro j _
      show (k0 + (j + 1)) * (Bs * nchan) = (k0 + 1 + j) * (Bs * nchan)
      congr 1
      omega
    rw [htail]
    by_cases hk : k0 * Bs < W
    · have hcur2 := hcur hk
      have hpos2 := hpos hk
      subst hcur2
      subst hpos2
      have hbsize : min (Bs * nchan)
          (W * nchan - k0 * (Bs * nchan) / nchan * nchan)
          = min Bs (W - k0 * Bs) * nchan := by
        rw [hbs, ← Nat.sub_mul, min_mul_of_mul]
      have h5 : (start + AW) * nchan
          = (start + min (k0 * Bs) AW) * nchan + (AW - k0 * Bs) * nchan := by
        rw [← Nat.add_mul]
        congr 1
        omega
      have he2 : min (min Bs (W - k0 * Bs) * nchan) ((AW - k0 * Bs) * nchan)
          = min (min Bs (W - k0 * Bs)) (AW - k0 * Bs) * nchan :=
        min_mul_of_mul _ _ _
      have he3 : min (min Bs (W - k0 * Bs)) (AW - k0 * Bs) * nchan
          ≤ (AW - k0 * Bs) * nchan :=
        Nat.mul_le_mul_right _ (by omega)
      have hfl : fileRead file ((start + min (k0 * Bs) AW) * nchan)
          (min (Bs * nchan) (W * nchan - k0 * (Bs * nchan) / nchan * nchan))
          = (file.drop ((start + min (k0 * Bs) AW) * nchan)).take
            (min (min Bs (W - k0 * Bs)) (AW - k0 * Bs) * nchan) := by
      -- both take counts clip to the same length against the remaining file
        unfold fileRead
        rw [hbsize]
        apply List.take_eq_take.2
        rw [List.length_drop, hL]
        omega
      have hulen : (start + min (k0 * Bs) AW) * nchan
          + min (min Bs (W - k0 * Bs)) (AW - k0 * Bs) * nchan ≤ file.length := by
        rw [hL]
        omega
      rw [readLoop_cons_short file nchan idx cals (W * nchan) (k0 * (Bs * nchan))
        _ (Bs * nchan) ((start + min (k0 * Bs) AW) * nchan)
        (min (min Bs (W - k0 * Bs)) (AW - k0 * Bs)) dest hn hfl hulen]
      rw [hbsize, hbs]
      have hcols : ((List.range (min (min Bs (W - k0 * Bs)) (AW - k0 * Bs))).map
          fun t => (file.drop
            ((start + min (k0 * Bs) AW) * nchan + t * nchan)).take nchan).map
            (calSelect idx cals)
          = (List.range (min (min Bs (W - k0 * Bs)) (AW - k0 * Bs))).map
            fun t => specCol file nchan idx cals (start + k0 * Bs + t) := by
        rw [List.map_map]
        apply List.map_congr_left
        intro t ht
        have ht2 := List.mem_range.1 ht
        show calSelect idx cals ((file.drop
            ((start + min (k0 * Bs) AW) * nchan + t * nchan)).take nchan)
          = specCol file nchan idx cals (start + k0 * Bs + t)
        have hAB : (start + min (k0 * Bs) AW) * nchan + t * nchan
            = (start + k0 * Bs + t) * nchan := by
          rw [← Nat.add_mul]
          congr 1
          omega
        rw [hAB]
        rfl
      rw [hcols]
      rw [ih (k0 + 1)]
      · by_cases hbig : Bs ≤ AW - k0 * Bs
        · have hu : min (min Bs (W - k0 * Bs)) (AW - k0 * Bs) = Bs := by omega
          have htail2 : ((List.range (AW - (k0 + 1) * Bs)).map fun j =>
              specCol file nchan idx cals (start + (k0 + 1) * Bs + j))
              = (List.range (AW - (k0 + 1) * Bs)).map fun j =>
                specCol file nchan idx cals (start + k0 * Bs + (Bs + j)) := by
            apply List.map_congr_left
            intro j _
            congr 1
            omega
          rw [hu, htail2, hsucc,
            show AW - k0 * Bs = Bs + (AW - (k0 * Bs + Bs)) from by omega]
          exact congrArg Except.ok (overwrite_split dest (k0 * Bs) Bs
            (AW - (k0 * Bs + Bs))
            fun j => specCol file nchan idx cals (start + k0 * Bs + j))
        · have hz : AW - (k0 + 1) * Bs = 0 := by omega
          have hu : min (min Bs (W - k0 * Bs)) (AW - k0 * Bs)
              = AW - k0 * Bs := by omega
          rw [hz]
          simp only [List.range_zero, List.map_nil, overwriteFrom_nil_right]
          rw [hu]
      · omega
      · intro h
        have hw : min Bs (W - k0 * Bs) = Bs := by omega
        rw [hw]
      · intro h
        rw [← Nat.add_mul]
        exact congrArg (fun x => x * nchan) (by omega)
      · rw [overwriteFrom_length]
        exact hd
    · have hmin0 : min cur (W * nchan - k0 * (Bs * nchan) / nchan * nchan) = 0 := by
        rw [hbs]
        have hle : W * nchan ≤ k0 * Bs * nchan :=
          Nat.mul_le_mul_right _ (by omega)
        omega
      have hflat : fileRead file pos
          (min cur (W * nchan - k0 * (Bs * nchan) / nchan * nchan))
          = ([] : List α) := by
        rw [hmin0]
        unfold fileRead
        exact List.take_zero _
      simp only [readLoop, hflat, List.length_nil]
      rw [if_pos (Nat.zero_mod nchan)]
      have hcols : (reshapeF nchan ([] : List α)).map (calSelect idx cals) = [] := by
        simp [reshapeF]
      simp only [hcols, overwriteFrom_nil_right, Nat.add_zero]
      rw [ih (k0 + 1)]
      · have hz1 : AW - (k0 + 1) * Bs = 0 := by omega
        have hz2 : AW - k0 * Bs = 0 := by omega
        rw [hz1, hz2]
        simp only [List.range_zero, List.map_nil, overwriteFrom_nil_right]
      · omega
      · intro h
        exact absurd h (by omega)
      · intro h
        exact absurd h (by omega)
      · exact hd

/-- The block loop on a file whose length leaves a remainder r, with r
strictly between 0 and nchan, after the last whole sample of the requested
range: the first block that reaches the end of file gets back a float count
that is not a multiple of the channel count, so the Fortran-order reshape
fails and the loop stops with the reshape error. -/
lemma readLoop_blocks_misaligned (file : List α) (nchan : Nat) (idx : List Nat)
    (cals : List α) (start W Bs AW r : Nat) (hn : 0 < nchan) (hB : 0 < Bs)
    (hAW : AW < W) (hr0 : 0 < r) (hr : r < nchan)
    (hL : file.length = (start + AW) * nchan + r) :
    ∀ (m k0 cur pos : Nat) (dest : List (List α)),
      W ≤ k0 * Bs + m * Bs →
      k0 * Bs ≤ AW →
      cur = Bs * nchan →
      pos = (start + k0 * Bs) * nchan →
      (readLoop file nchan idx cals (W * nchan)
          ((List.range m).map fun j => (k0 + j) * (Bs * nchan)) cur pos dest).2
        = Except.error SetError.reshapeError := by
  intro m
  induction m with
  | zero =>
    intro k0 cur pos dest hm hk0 hcur hpos
    exfalso
    omega
  | succ m ih =>
    intro k0 cur pos dest hm hk0 hcur hpos
    subst hcur
    subst hpos
    have hsucc : (k0 + 1) * Bs = k0 * Bs + Bs := Nat.succ_mul _ _
    have hsm : (m + 1) * Bs = m * Bs + Bs := Nat.succ_mul _ _
    have hbs : k0 * (Bs * nchan) / nchan = k0 * Bs := by
      rw [← Nat.mul_assoc, Nat.mul_div_cancel _ hn]
    rw [List.range_succ_eq_map]
    simp only [List.map_cons, List.map_map, Nat.add_zero]
    have htail : (List.range m).map ((fun j => (k0 + j) * (Bs * nchan)) ∘ Nat.succ)
        = (List.range m).map fun j => (k0 + 1 + j) * (Bs * nchan) := by
      apply List.map_congr_left
      intro j _
      show (k0 + (j + 1)) * (Bs * nchan) = (k0 + 1 + j) * (Bs * nchan)
      congr 1
      omega
    rw [htail]
    have hbsize : min (Bs * nchan)
        (W * nchan - k0 * (Bs * nchan) / nchan * nchan)
        = min Bs (W - k0 * Bs) * nchan := by
      rw [hbs, ← Nat.sub_mul, min_mul_of_mul]
    by_cases hfull : k0 * Bs + Bs ≤ AW
    · have hw : min Bs (W - k0 * Bs) = Bs := by omega
      have hbsize2 : min (Bs * nchan)
          (W * nchan - k0 * (Bs * nchan) / nchan * nchan) = Bs * nchan := by
        rw [hbsize, hw]
      have hwlen : (start + k0 * Bs) * nchan + Bs * nchan ≤ file.length := by
        have h8 : (start + k0 * Bs) * nchan + Bs * nchan
            = (start + k0 * Bs + Bs) * nchan := (Nat.add_mul _ _ _).symm
        have h9 : (start + k0 * Bs + Bs) * nchan ≤ (start + AW) * nchan :=
          Nat.mul_le_mul_right _ (by omega)
        omega
      rw [readLoop_cons_full file nchan idx cals (W * nchan) (k0 * (Bs * nchan))
        _ (Bs * nchan) ((start + k0 * Bs) * nchan) Bs dest hn hbsize2 hwlen]
      exact ih (k0 + 1) _ _ _ (by omega) (by omega) rfl
        (by rw [← Nat.add_mul]; exact congrArg (fun x => x * nchan) (by omega))
    · have h5 : (start + AW) * nchan
          = (start + k0 * Bs) * nchan + (AW - k0 * Bs) * nchan := by
        rw [← Nat.add_mul]
        congr 1
        omega
      have f4 : (AW - k0 * Bs + 1) * nchan ≤ min Bs (W - k0 * Bs) * nchan :=
        Nat.mul_le_mul_right _ (by omega)
      have f5 : (AW - k0 * Bs + 1) * nchan = (AW - k0 * Bs) * nchan + nchan :=
        Nat.succ_mul _ _
      have hflen : (fileRead file ((start + k0 * Bs) * nchan)
          (min (Bs * nchan) (W * nchan - k0 * (Bs * nchan) / nchan * nchan))).length
          = (AW - k0 * Bs) * nchan + r := by
        unfold fileRead
        rw [hbsize, List.length_take, List.length_drop, hL]
        omega
      have hcond : ¬ ((fileRead file ((start + k0 * Bs) * nchan)
          (min (Bs * nchan)
            (W * nchan - k0 * (Bs * nchan) / nchan * nchan))).length
          % nchan = 0) := by
        rw [hflen]
        intro hcontra
        rw [Nat.add_comm ((AW - k0 * Bs) * nchan) r,
          Nat.add_mul_mod_self_right, Nat.mod_eq_of_lt hr] at hcontra
        omega
      simp only [readLoop]
      rw [if_neg hcond]

lemma readLoop_cons (file : List α) (nchan : Nat) (idx : List Nat)
    (cals : List α) (dataLeft bsRaw : Nat) (rest : List Nat)
    (cur pos : Nat) (dest : List (List α))
    (hmod : (fileRead file pos
      (min cur (dataLeft - bsRaw / nchan * nchan))).length % nchan = 0) :
    (readLoop file nchan idx cals dataLeft (bsRaw :: rest) cur pos dest).2
      = (readLoop file nchan idx cals dataLeft rest
          (min cur (dataLeft - bsRaw / nchan * nchan))
          (pos + (fileRead file pos
            (min cur (dataLeft - bsRaw / nchan * nchan))).length)
          (overwriteFrom dest (bsRaw / nchan)
            ((reshapeF nchan (fileRead file pos
              (min cur (dataLeft - bsRaw / nchan * nchan)))).map
              (calSelect idx cals)))).2 := by
  simp only [readLoop]
  rw [if_pos hmod]

/-- Closed form of the chunked read: with a positive channel count, a
nonempty block budget and a file at least as long as the header implies, the
read succeeds and the destination holds, column by column, the selected
calibrated samples of the requested range. -/
lemma readSegmentFile_ok (file : List α) (nchan : Nat) (idx : List Nat)
    (cals : List α) (start stop B : Nat) (hn : 0 < nchan) (hB : 0 < B)
    (hss : start ≤ stop) (hfile : stop * nchan ≤ file.length) :
    (readSegmentFile file nchan idx cals start stop B).2
      = Except.ok ((List.range (stop - start)).map fun t =>
          specCol file nchan idx cals (start + t)) := by
  by_cases hW : stop - start = 0
  · simp only [readSegmentFile, hW]
    simp [arange0, readLoop]
  · have hW1 : 0 < stop - start := Nat.pos_of_ne_zero hW
    have hBs : 0 < min (stop - start) B := by omega
    have hblk : min ((stop - start) * nchan) (B * nchan)
        = min (stop - start) B * nchan := min_mul_of_mul _ _ _
    have hstep : min (stop - start) B * nchan ≠ 0 := by
      have := Nat.mul_pos hBs hn
      omega
    have harange : arange0 ((stop - start) * nchan)
        (min (stop - start) B * nchan)
        = (List.range (((stop - start) * nchan
            + min (stop - start) B * nchan - 1)
            / (min (stop - start) B * nchan))).map
          fun j => (0 + j) * (min (stop - start) B * nchan) := by
      unfold arange0
      rw [if_neg hstep]
      apply List.map_congr_left
      intro j _
      show j * (min (stop - start) B * nchan)
        = (0 + j) * (min (stop - start) B * nchan)
      congr 1
      omega
    have hfile2 : (start + (stop - start)) * nchan ≤ file.length := by
      have hsum : start + (stop - start) = stop := by omega
      rw [hsum]
      exact hfile
    have hceil := le_ceil_mul ((stop - start) * nchan)
      (min (stop - start) B * nchan) (Nat.mul_pos hBs hn)
    have hm : (stop - start) ≤ 0 * min (stop - start) B
        + (((stop - start) * nchan + min (stop - start) B * nchan - 1)
            / (min (stop - start) B * nchan)) * min (stop - start) B := by
      have h3 : (((stop - start) * nchan + min (stop - start) B * nchan - 1)
          / (min (stop - start) B * nchan)) * (min (stop - start) B * nchan)
          = ((((stop - start) * nchan + min (stop - start) B * nchan - 1)
            / (min (stop - start) B * nchan)) * min (stop - start) B) * nchan := by
        rw [Nat.mul_assoc]
      rw [h3] at hceil
      have h4 := Nat.le_of_mul_le_mul_right hceil hn
      omega
    have hloop := readLoop_blocks file nchan idx cals start (stop - start)
      (min (stop - start) B) hn hBs hfile2
      (((stop - start) * nchan + min (stop - start) B * nchan - 1)
        / (min (stop - start) B * nchan)) 0
      (min (stop - start) B * nchan) (start * nchan)
      (List.replicate (stop - start) (List.replicate idx.length 0))
      hm (fun _ => rfl) (fun _ => by congr 1; omega) (by simp)
    simp only [readSegmentFile]
    rw [hblk, harange, hloop]
    simp only [Nat.zero_mul, Nat.sub_zero, Nat.add_zero]
    rw [overwriteFrom_full _ _ (by simp)]

/-- Claim C3 amended: a file shorter than the header implies never surfaces
as an explicit I/O error.  np.fromfile silently returns the samples that
exist; when the shortfall from the requested range is a whole number of
samples the read reports success with a silently truncated destination:
the columns for the samples present in the file followed by untouched
all-zero columns for the missing tail (a file ending at or before the first
requested sample thus yields the all-zero buffer).  When the shortfall is
not a multiple of the channel count, the load fails with the numpy reshape
error, still not an I/O error. -/
theorem c3_short_read_amended (file : List α) (nchan : Nat) (idx : List Nat)
    (cals : List α) (start stop B : Nat) (hn : 0 < nchan) (hB : 0 < B)
    (hseek : start * nchan ≤ file.length)
    (hshort : file.length ≤ stop * nchan) :
    ((file.length - start * nchan) % nchan = 0 →
      (readSegmentFile file nchan idx cals start stop B).2
        = Except.ok (((List.range ((file.length - start * nchan) / nchan)).map
            fun t => specCol file nchan idx cals (start + t))
          ++ List.replicate
              ((stop - start) - (file.length - start * nchan) / nchan)
              (List.replicate idx.length 0)))
    ∧ ((file.length - start * nchan) % nchan ≠ 0 →
      (readSegmentFile file nchan idx cals start stop B).2
        = Except.error SetError.reshapeError) := by
  have hsub : (stop - start) * nchan = stop * nchan - start * nchan :=
    Nat.sub_mul _ _ _
  constructor
  · intro hal
    have hdvd : nchan ∣ (file.length - start * nchan) :=
      Nat.dvd_of_mod_eq_zero hal
    have hAdiv : (file.length - start * nchan) / nchan * nchan
        = file.length - start * nchan := Nat.div_mul_cancel hdvd
    by_cases hW : stop - start = 0
    · have h0 : (stop - start) * nchan = 0 := by
        rw [hW, Nat.zero_mul]
      have hA0 : file.length - start * nchan = 0 := by omega
      rw [hA0]
      simp [readSegmentFile, hW, arange0, readLoop]
    · have hW1 : 0 < stop - start := Nat.pos_of_ne_zero hW
      have hLeq : file.length
          = (start + (file.length - start * nchan) / nchan) * nchan := by
        rw [Nat.add_mul]
        omega
      have h11 : (file.length - start * nchan) / nchan * nchan
          ≤ (stop - start) * nchan := by omega
      have hAW : (file.length - start * nchan) / nchan ≤ stop - start :=
        Nat.le_of_mul_le_mul_right h11 hn
      have hBs : 0 < min (stop - start) B := by omega
      have hblk : min ((stop - start) * nchan) (B * nchan)
          = min (stop - start) B * nchan := min_mul_of_mul _ _ _
      have hstep : min (stop - start) B * nchan ≠ 0 := by
        have := Nat.mul_pos hBs hn
        omega
      have harange : arange0 ((stop - start) * nchan)
          (min (stop - start) B * nchan)
          = (List.range (((stop - start) * nchan
              + min (stop - start) B * nchan - 1)
              / (min (stop - start) B * nchan))).map
            fun j => (0 + j) * (min (stop - start) B * nchan) := by
        unfold arange0
        rw [if_neg hstep]
        apply List.map_congr_left
        intro j _
        show j * (min (stop - start) B * nchan)
          = (0 + j) * (min (stop - start) B * nchan)
        congr 1
        omega
      have hceil := le_ceil_mul ((stop - start) * nchan)
        (min (stop - start) B * nchan) (Nat.mul_pos hBs hn)
      have hm : (stop - start) ≤ 0 * min (stop - start) B
          + (((stop - start) * nchan + min (stop - start) B * nchan - 1)
              / (min (stop - start) B * nchan)) * min (stop - start) B := by
        have h3 : (((stop - start) * nchan + min (stop - start) B * nchan - 1)
            / (min (stop - start) B * nchan)) * (min (stop - start) B * nchan)
            = ((((stop - start) * nchan + min (stop - start) B * nchan - 1)
              / (min (stop - start) B * nchan)) * min (stop - start) B)
              * nchan := by
          rw [Nat.mul_assoc]
        rw [h3] at hceil
        have h4 := Nat.le_of_mul_le_mul_right hceil hn
        omega
      have hloop := readLoop_blocks_short file nchan idx cals start
        (stop - start) (min (stop - start) B)
        ((file.length - start * nchan) / nchan) hn hBs hAW hLeq
        (((stop - start) * nchan + min (stop - start) B * nchan - 1)
          / (min (stop - start) B * nchan)) 0
        (min (stop - start) B * nchan) (start * nchan)
        (List.replicate (stop - start) (List.replicate idx.length 0))
        hm (fun _ => rfl)
        (fun _ => by
          have hz : min (0 * min (stop - start) B)
              ((file.length - start * nchan) / nchan) = 0 := by
            simp
          rw [hz, Nat.add_zero])
        (by simp)
      simp only [readSegmentFile]
      rw [hblk, harange, hloop]
      simp only [Nat.zero_mul, Nat.sub_zero, Nat.add_zero]
      rw [overwriteFrom_replicate_front _ _ _ (by simpa using hAW)]
      simp only [List.length_map, List.length_range]
  · intro hmis
    have hA : 0 < (file.length - start * nchan) % nchan :=
      Nat.pos_of_ne_zero hmis
    have hrlt : (file.length - start * nchan) % nchan < nchan :=
      Nat.mod_lt _ hn
    have hmod := Nat.div_add_mod (file.length - start * nchan) nchan
    have hcomm : (file.length - start * nchan) / nchan * nchan
        = nchan * ((file.length - start * nchan) / nchan) := Nat.mul_comm _ _
    have hL2 : file.length
        = (start + (file.length - start * nchan) / nchan) * nchan
          + (file.length - start * nchan) % nchan := by
      rw [Nat.add_mul]
      omega
    have h12 : (file.length - start * nchan) / nchan * nchan
        < (stop - start) * nchan := by omega
    have hAWlt : (file.length - start * nchan) / nchan < stop - start :=
      Nat.lt_of_mul_lt_mul_right h12
    have hW1 : 0 < stop - start := Nat.lt_of_le_of_lt (Nat.zero_le _) hAWlt
    have hBs : 0 < min (stop - start) B := by omega
    have hblk : min ((stop - start) * nchan) (B * nchan)
        = min (stop - start) B * nchan := min_mul_of_mul _ _ _
    have hstep : min (stop - start) B * nchan ≠ 0 := by
      have := Nat.mul_pos hBs hn
      omega
    have harange : arange0 ((stop - start) * nchan)
        (min (stop - start) B * nchan)
        = (List.range (((stop - start) * nchan
            + min (stop - start) B * nchan - 1)
            / (min (stop - start) B * nchan))).map
          fun j => (0 + j) * (min (stop - start) B * nchan) := by
      unfold arange0
      rw [if_neg hstep]
      apply List.map_congr_left
      intro j _
      show j * (min (stop - start) B * nchan)
        = (0 + j) * (min (stop - start) B * nchan)
      congr 1
      omega
    have hceil := le_ceil_mul ((stop - start) * nchan)
      (min (stop - start) B * nchan) (Nat.mul_pos hBs hn)
    have hm : (stop - start) ≤ 0 * min (stop - start) B
        + (((stop - start) * nchan + min (stop - start) B * nchan - 1)
            / (min (stop - start) B * nchan)) * min (stop - start) B := by
      have h3 : (((stop - start) * nchan + min (stop - start) B * nchan - 1)
          / (min (stop - start) B * nchan)) * (min (stop - start) B * nchan)
          = ((((stop - start) * nchan + min (stop - start) B * nchan - 1)
            / (min (stop - start) B * nchan)) * min (stop - start) B)
            * nchan := by
        rw [Nat.mul_assoc]
      rw [h3] at hceil
      have h4 := Nat.le_of_mul_le_mul_right hceil hn
      omega
    have hloop := readLoop_blocks_misaligned file nchan idx cals start
      (stop - start) (min (stop - start) B)
      ((file.length - start * nchan) / nchan)
      ((file.length - start * nchan) % nchan) hn hBs hAWlt hA hrlt hL2
      (((stop - start) * nchan + min (stop - start) B * nchan - 1)
        / (min (stop - start) B * nchan)) 0
      (min (stop - start) B * nchan) (start * nchan)
      (List.replicate (stop - start) (List.replicate idx.length 0))
      hm (by rw [Nat.zero_mul]; exact Nat.zero_le _) rfl
      (by rw [Nat.zero_mul, Nat.add_zero])
    simp only [readSegmentFile]
    rw [hblk, harange, hloop]

/-- Claim C3 amended witness: two concrete two-channel reads of the sample
range 0 to 5 in blocks of 2 samples.  A 6-float file is two whole samples
short: the read succeeds with the three existing columns followed by two
untouched zero columns.  A 5-float file is misaligned by one float: the
read fails with the reshape error. -/
theorem c3_short_read_amended_witness :
    (((0 : Nat) < 2 ∧ (0 : Nat) < 2
        ∧ 0 * 2 ≤ ([1, 2, 3, 4, 5, 6] : List ℤ).length
        ∧ ([1, 2, 3, 4, 5, 6] : List ℤ).length ≤ 5 * 2)
      ∧ ((([1, 2, 3, 4, 5, 6] : List ℤ).length - 0 * 2) % 2 = 0 →
          (readSegmentFile ([1, 2, 3, 4, 5, 6] : List ℤ)
              2 [0, 1] [1, 1] 0 5 2).2
            = Except.ok (((List.range
                ((([1, 2, 3, 4, 5, 6] : List ℤ).length - 0 * 2) / 2)).map
                  fun t => specCol ([1, 2, 3, 4, 5, 6] : List ℤ)
                    2 [0, 1] [1, 1] (0 + t))
              ++ List.replicate ((5 - 0)
                  - (([1, 2, 3, 4, 5, 6] : List ℤ).length - 0 * 2) / 2)
                  (List.replicate ([0, 1] : List Nat).length 0)))
        ∧ ((([1, 2, 3, 4, 5, 6] : List ℤ).length - 0 * 2) % 2 ≠ 0 →
          (readSegmentFile ([1, 2, 3, 4, 5, 6] : List ℤ)
              2 [0, 1] [1, 1] 0 5 2).2
            = Except.error SetError.reshapeError))
    ∧ (((0 : Nat) < 2 ∧ (0 : Nat) < 2
        ∧ 0 * 2 ≤ ([1, 2, 3, 4, 5] : List ℤ).length
        ∧ ([1, 2, 3, 4, 5] : List ℤ).length ≤ 5 * 2)
      ∧ ((([1, 2, 3, 4, 5] : List ℤ).length - 0 * 2) % 2 = 0 →
          (readSegmentFile ([1, 2, 3, 4, 5] : List ℤ)
              2 [0, 1] [1, 1] 0 5 2).2
            = Except.ok (((List.range
                ((([1, 2, 3, 4, 5] : List ℤ).length - 0 * 2) / 2)).map
                  fun t => specCol ([1, 2, 3, 4, 5] : List ℤ)
                    2 [0, 1] [1, 1] (0 + t))
              ++ List.replicate ((5 - 0)
                  - (([1, 2, 3, 4, 5] : List ℤ).length - 0 * 2) / 2)
                  (List.replicate ([0, 1] : List Nat).length 0)))
        ∧ ((([1, 2, 3, 4, 5] : List ℤ).length - 0 * 2) % 2 ≠ 0 →
          (readSegmentFile ([1, 2, 3, 4, 5] : List ℤ)
              2 [0, 1] [1, 1] 0 5 2).2
            = Except.error SetError.reshapeError)) :=
  ⟨⟨⟨by decide, by decide, by decide, by decide⟩,
      c3_short_read_amended [1, 2, 3, 4, 5, 6] 2 [0, 1] [1, 1] 0 5 2
        (by decide) (by decide) (by decide) (by decide)⟩,
    ⟨⟨by decide, by decide, by decide, by decide⟩,
      c3_short_read_amended [1, 2, 3, 4, 5] 2 [0, 1] [1, 1] 0 5 2
        (by decide) (by decide) (by decide) (by decide)⟩⟩

/-- Claim C6: for a continuous recording backed by a file at least as long
as the header implies, any requested channel subset and any block length of
at least one sample, reading the range in blocks of that length produces
exactly the same destination buffer as reading the whole range as a single
block. -/
theorem c6_chunk_equiv (file : List α) (nchan : Nat) (idx : List Nat)
    (cals : List α) (start stop B : Nat) (hn : 0 < nchan) (hB : 0 < B)
    (hss : start < stop) (hfile : stop * nchan ≤ file.length) :
    (readSegmentFile file nchan idx cals start stop B).2
      = (readSegmentFile file nchan idx cals start stop (stop - start)).2 := by
  rw [readSegmentFile_ok file nchan idx cals start stop B hn hB
      (Nat.le_of_lt hss) hfile,
    readSegmentFile_ok file nchan idx cals start stop (stop - start) hn
      (by omega) (Nat.le_of_lt hss) hfile]

/-- Claim C6 witness: a two-channel six-sample file read over the full range
in blocks of 2 samples equals the single-block read. -/
theorem c6_chunk_equiv_witness :
    ((0 : Nat) < 2 ∧ (0 : Nat) < 2 ∧ (0 : Nat) < 3
      ∧ 3 * 2 ≤ ([1, 2, 3, 4, 5, 6] : List ℤ).length)
    ∧ (readSegmentFile ([1, 2, 3, 4, 5, 6] : List ℤ) 2 [0, 1] [1, 1] 0 3 2).2
      = (readSegmentFile ([1, 2, 3, 4, 5, 6] : List ℤ) 2 [0, 1] [1, 1] 0 3
          (3 - 0)).2 :=
  ⟨⟨by decide, by decide, by decide, by decide⟩,
    c6_chunk_equiv [1, 2, 3, 4, 5, 6] 2 [0, 1] [1, 1] 0 3 2
      (by decide) (by decide) (by decide) (by decide)⟩

end EEGLab
